import Mathlib

/-!
# Verification of the PBFT replica core (RustBlockChain)

A shallow embedding of `src/node.rs` (with `src/message.rs`) of the
RustBlockChain repository, together with theorems settling the frozen
claims about the replica's consensus engine.

Modelling conventions:
* Rust `u64`/`usize` become `Nat` (no arithmetic in the source can overflow
  on the inputs considered; `view += 1` and `sequence_number += 1` are the
  only arithmetic).
* `HashSet` fields of the node become `Finset Nat` / `Finset (Nat × String)`;
  `HashMap<usize, HashSet<usize>>` becomes `Nat → Finset Nat` with default
  `∅` (the `entry(..).or_insert_with(HashSet::new)` behaviour).
* The transient `HashMap<String, HashSet<usize>>` digest tallies built inside
  `handle_prepare` / `detect_byzantine_nodes` are modelled as association
  lists in first-insertion order.  The real `HashMap` iterates in an
  arbitrary order; theorems that depend on an iteration-order-sensitive
  choice (`find`, `max_by_key`) are only stated under hypotheses that make
  every order give the same answer, or at inputs with a single candidate.
* Panics (`.unwrap()` on fallible library calls) are modelled by `Option`:
  a handler returns `none` exactly where the source process would panic.
* Effects: a handler returns, besides the node, the list of messages it
  passes to `broadcast` and the list of `NodeState` snapshots it passes to
  `NodeState::save`.  `broadcast` itself (node.rs lines 481-525) re-stamps
  the view of PrePrepare/Prepare/Commit messages and wraps the result in a
  `SignedMessage`; the model records the re-stamped inner message
  (signing and the per-peer send loop carry no information the claims need).
* Wall-clock time (`Instant`, `Duration`), the tokio channel, the spawned
  new-view timer task and the `Mutex` around `NodeState` (single task, never
  contended) are not modelled; the timeout guard in `handle_timeout` is
  modelled as the timeout event having genuinely fired.
-/

namespace RustPBFT

/-- `PBFTMessage` from src/message.rs.  Byte vectors (`Vec<u8>` signature and
public-key bytes) become `List Nat`. -/
inductive PBFTMessage where
  | Request (operation : String)
  | PrePrepare (view sequence_number : Nat) (digest : String)
  | Prepare (view sequence_number : Nat) (digest : String) (sender_id : Nat)
  | Commit (view sequence_number : Nat) (digest : String)
  | ViewChange (view last_sequence_number : Nat) (node_id : Nat)
  | NewView (view : Nat) (view_change_messages : List PBFTMessage)
  | PubKey (node_id : Nat) (public_key : List Nat)
  | SignedMessage (message : PBFTMessage) (signature : List Nat) (sender_id : Nat)
  | ByzantineVote (suspected_id sender_id : Nat)
deriving Repr

/-- `NodeState` from src/node.rs lines 15-22: the persisted consensus state. -/
structure NodeState where
  prepared : Finset (Nat × String)
  committed : Finset (Nat × String)
  messages : List PBFTMessage
  view_change_messages : List PBFTMessage
  byzantine_votes : Nat → Finset Nat

/-- The `Node` struct from src/node.rs lines 47-64.  `receiver`, `keypair`,
`timeout_duration`, `last_message_time` and the `new_view_timer` join handle
are runtime artefacts; the timer is kept as a `Bool` (armed or not). -/
structure Node where
  id : Nat
  view : Nat
  sequence_number : Nat
  digest : String
  state : NodeState
  view_change_in_progress : Bool
  is_byzantine : Bool
  suspected_nodes : Finset Nat
  blacklist : Finset Nat
  pending_requests : List PBFTMessage
  public_keys : List (Nat × List Nat)
  new_view_timer : Bool

/-- The observable effects of one handler invocation: the inner messages
handed to `broadcast`, and the `NodeState` snapshots handed to
`NodeState::save` (i.e. persisted). -/
structure Effects where
  broadcasts : List PBFTMessage
  saves : List NodeState

/-- `NodeState::load` for a fresh replica (no durable file), node.rs
lines 36-42. -/
def initState : NodeState :=
  { prepared := ∅, committed := ∅, messages := [],
    view_change_messages := [], byzantine_votes := fun _ => ∅ }

/-- `Node::new`, node.rs lines 67-93, with the fresh `NodeState`. -/
def initNode (id view : Nat) (public_keys : List (Nat × List Nat))
    (is_byzantine : Bool) : Node :=
  { id := id, view := view, sequence_number := 0, digest := "",
    state := initState, view_change_in_progress := false,
    is_byzantine := is_byzantine, suspected_nodes := ∅, blacklist := ∅,
    pending_requests := [], public_keys := public_keys,
    new_view_timer := false }

/-- Modelled from the spec: the configuration constants `F` (max Byzantine
replicas) and `N` (total replicas) live in `src/config.rs`, which main.rs
declares (`mod config;`) and node.rs imports, but which is not among the
provided sources.  The spec fixes `N ≥ 3F+1` (§6) and runs every scenario
at `N = 4`, `F = 1` (§8).  The handlers below take `F` and `N` as explicit
arguments; these two constants instantiate them for concrete runs. -/
def specF : Nat := 1

/-- Modelled from the spec: total replica count, see `specF`. -/
def specN : Nat := 4

/-- `Node::is_primary`, node.rs lines 527-529. -/
def is_primary (N : Nat) (n : Node) : Prop := n.id = n.view % N

instance (N : Nat) (n : Node) : Decidable (is_primary N n) := by
  unfold is_primary; infer_instance

/-- The view re-stamping performed by `broadcast`, node.rs lines 483-507:
PrePrepare, Prepare and Commit are rebuilt with the sender's current view;
every other variant is cloned unchanged. -/
def stampView (view : Nat) : PBFTMessage → PBFTMessage
  | .PrePrepare _ s d => .PrePrepare view s d
  | .Prepare _ s d i => .Prepare view s d i
  | .Commit _ s d => .Commit view s d
  | m => m

/-- Empty effect bundle. -/
def Effects.none : Effects := ⟨[], []⟩

/-- Sequential composition of effects. -/
def Effects.append (a b : Effects) : Effects :=
  ⟨a.broadcasts ++ b.broadcasts, a.saves ++ b.saves⟩

/-- `Node::handle_request`, node.rs lines 200-223.  `sha` abstracts
`compute_digest` (SHA-256 of the operation, hex-encoded; lines 531-537). -/
def handle_request (N : Nat) (sha : String → String) (n : Node)
    (msg : PBFTMessage) : Node × Effects :=
  match msg with
  | .Request operation =>
      let n := { n with pending_requests := n.pending_requests ++ [.Request operation] }
      if is_primary N n ∧ n.view_change_in_progress = false then
        let seq := n.sequence_number + 1
        let d := sha operation
        let n := { n with sequence_number := seq, digest := d }
        (n, ⟨[stampView n.view (.PrePrepare n.view seq d)], []⟩)
      else (n, Effects.none)
  | _ => (n, Effects.none)

/-- The wrong digest a Byzantine replica substitutes into its Prepare,
node.rs line 235. -/
def wrongDigest : String := "错误的摘要"

/-- `Node::handle_preprepare`, node.rs lines 225-255. -/
def handle_preprepare (N : Nat) (n : Node) (msg : PBFTMessage) :
    Node × Effects :=
  match msg with
  | .PrePrepare view seq d =>
      if view = n.view ∧ ¬ is_primary N n then
        let n := { n with sequence_number := seq, digest := d }
        let pd := if n.is_byzantine then wrongDigest else d
        (n, ⟨[stampView n.view (.Prepare view seq pd n.id)], []⟩)
      else (n, Effects.none)
  | _ => (n, Effects.none)

/-- `HashSet::insert` on the duplicate-free-list model of a hash set. -/
def insertIfAbsent (j : Nat) (l : List Nat) : List Nat :=
  if j ∈ l then l else l ++ [j]

/-- One `entry(d).or_insert_with(HashSet::new).insert(i)` step on the
association-list model of `HashMap<String, HashSet<usize>>`: keys are kept
in first-insertion order, and each sender list is duplicate-free in
first-insertion order. -/
def insertSender (acc : List (String × List Nat)) (p : String × Nat) :
    List (String × List Nat) :=
  if acc.any fun q => q.1 = p.1 then
    acc.map fun q => if q.1 = p.1 then (q.1, insertIfAbsent p.2 q.2) else q
  else acc ++ [(p.1, [p.2])]

/-- Group a list of (digest, sender) pairs into the association-list tally. -/
def groupPairs (ps : List (String × Nat)) : List (String × List Nat) :=
  ps.foldl insertSender []

/-- The (digest, tallied id) pairs scanned by the `digest_counts` loop in
`handle_prepare`, node.rs lines 263-271: Prepare messages whose view and
sequence number match the replica's current ones.  NOTE the source bug: the
id inserted into the tally is `self.id`, not the Prepare's `sender_id`
(node.rs line 268 destructures the sender away with `..`). -/
def prepPairsAt (selfId view seq : Nat) (msgs : List PBFTMessage) :
    List (String × Nat) :=
  msgs.filterMap fun m =>
    match m with
    | .Prepare v s d _ => if v = view ∧ s = seq then some (d, selfId) else none
    | _ => none

/-- The `digest_counts` tally of `handle_prepare`, node.rs lines 263-271. -/
def digest_counts (selfId view seq : Nat) (msgs : List PBFTMessage) :
    List (String × List Nat) :=
  groupPairs (prepPairsAt selfId view seq msgs)

/-- The (digest, sender) pairs scanned by `detect_byzantine_nodes`,
node.rs lines 310-314: every accumulated Prepare, with NO view or
sequence-number filter, keyed by its real sender. -/
def prepPairsAll (msgs : List PBFTMessage) : List (String × Nat) :=
  msgs.filterMap fun m =>
    match m with
    | .Prepare _ _ d i => some (d, i)
    | _ => none

/-- The `digest_map` tally of `detect_byzantine_nodes`, node.rs
lines 308-314. -/
def digest_map (msgs : List PBFTMessage) : List (String × List Nat) :=
  groupPairs (prepPairsAll msgs)

/-- One comparison step of Rust's `Iterator::max_by_key` (ties keep the
later element). -/
def maxStep (best : Option (String × List Nat)) (p : String × List Nat) :
    Option (String × List Nat) :=
  match best with
  | Option.none => some p
  | some q => if q.2.length ≤ p.2.length then some p else some q

/-- Rust `Iterator::max_by_key` over the tally (node.rs line 317): returns
the last entry of maximal sender count, `none` on an empty tally (where the
source's `.unwrap()` would panic). -/
def maxByLen (l : List (String × List Nat)) : Option (String × List Nat) :=
  l.foldl maxStep Option.none

/-- `Node::detect_byzantine_nodes`, node.rs lines 307-334: group ALL
accumulated Prepares by digest, take the digest with the most senders as
correct, mark every sender of any other digest suspected and broadcast a
ByzantineVote for each.  `none` models the panic of the `.unwrap()` on an
empty tally. -/
def detect_byzantine_nodes (n : Node) (msgs : List PBFTMessage) :
    Option (Node × Effects) :=
  let dm := digest_map msgs
  match maxByLen dm with
  | Option.none => none
  | some best =>
      let correct := best.1
      let offenders := (dm.filter fun p => decide (p.1 ≠ correct)).flatMap Prod.snd
      some ({ n with suspected_nodes := n.suspected_nodes ∪ offenders.toFinset },
            ⟨offenders.map fun j => stampView n.view (.ByzantineVote j n.id), []⟩)

/-- `Node::handle_prepare`, node.rs lines 257-305.  The incoming message is
pushed onto the accumulated log unconditionally (the source never re-matches
it).  `none` models the two reachable `.unwrap()` panics (empty tally in
`detect_byzantine_nodes`; `find` failing after `max_count >= 2*F`, possible
only when `F = 0` and no Prepare matches the current view/seq). -/
def handle_prepare (F : Nat) (n : Node) (msg : PBFTMessage) :
    Option (Node × Effects) :=
  let st := { n.state with messages := n.state.messages ++ [msg] }
  let n := { n with state := st }
  let dc := digest_counts n.id n.view n.sequence_number st.messages
  let afterDetect : Option (Node × Effects) :=
    if 1 < dc.length then detect_byzantine_nodes n st.messages
    else some (n, Effects.none)
  match afterDetect with
  | Option.none => none
  | some (n, eff) =>
      let max_count := (dc.map fun p => p.2.length).foldl max 0
      if 2 * F ≤ max_count then
        match dc.find? fun p => p.2.length = max_count with
        | Option.none => none
        | some p =>
            let correct_digest := p.1
            if (n.sequence_number, correct_digest) ∈ n.state.prepared then
              some (n, eff)
            else
              let st' := { n.state with
                prepared := insert (n.sequence_number, correct_digest) n.state.prepared }
              let n' := { n with state := st' }
              some (n', Effects.append eff
                ⟨[stampView n'.view (.Commit n'.view n'.sequence_number correct_digest)],
                 [st']⟩)
      else some (n, eff)

/-- `Node::handle_commit`, node.rs lines 349-374: push the message, count
the accumulated Commits matching the replica's current
(view, sequence_number, digest), and on reaching `2F+1` insert into
`committed` (if new) and persist. -/
def handle_commit (F : Nat) (n : Node) (msg : PBFTMessage) : Node × Effects :=
  let st := { n.state with messages := n.state.messages ++ [msg] }
  let commit_count := (st.messages.filter fun m =>
    match m with
    | .Commit v s d =>
        decide (v = n.view ∧ s = n.sequence_number ∧ d = n.digest)
    | _ => false).length
  if 2 * F + 1 ≤ commit_count then
    if (n.sequence_number, n.digest) ∈ st.committed then
      ({ n with state := st }, Effects.none)
    else
      let st' := { st with
        committed := insert (n.sequence_number, n.digest) st.committed }
      ({ n with state := st' }, ⟨[], [st']⟩)
  else ({ n with state := st }, Effects.none)

/-- `Node::handle_byzantine_vote`, node.rs lines 336-347: record the accuser
under the suspect, and blacklist the suspect once the accuser set reaches
`2F+1`.  No save occurs in the source. -/
def handle_byzantine_vote (F : Nat) (n : Node)
    (suspected_id sender_id : Nat) : Node × Effects :=
  let entry := insert sender_id (n.state.byzantine_votes suspected_id)
  let bv := fun s => if s = suspected_id then entry else n.state.byzantine_votes s
  let n := { n with state := { n.state with byzantine_votes := bv } }
  if 2 * F + 1 ≤ entry.card then
    ({ n with blacklist := insert suspected_id n.blacklist }, Effects.none)
  else (n, Effects.none)

/-- `Node::send_new_view`, node.rs lines 433-450. -/
def send_new_view (n : Node) : Node × Effects :=
  let nv := PBFTMessage.NewView n.view n.state.view_change_messages
  ({ n with new_view_timer := false, view_change_in_progress := false },
   ⟨[stampView n.view nv], []⟩)

/-- `Node::handle_view_change`, node.rs lines 411-431. -/
def handle_view_change (F N : Nat) (n : Node) (msg : PBFTMessage) :
    Node × Effects :=
  match msg with
  | .ViewChange view last node_id =>
      if view = n.view then
        let st := { n.state with
          view_change_messages :=
            n.state.view_change_messages ++ [.ViewChange view last node_id] }
        let n := { n with state := st }
        let count := (st.view_change_messages.filter fun m =>
          match m with
          | .ViewChange v _ _ => decide (v = n.view)
          | _ => false).length
        if 2 * F ≤ count ∧ is_primary N n then send_new_view n
        else (n, Effects.none)
      else (n, Effects.none)
  | _ => (n, Effects.none)

/-- One iteration of the pending-request replay loop in
`Node::handle_new_view`, node.rs lines 471-476. -/
def replay_request (N : Nat) (sha : String → String) (acc : Node × Effects)
    (req : PBFTMessage) : Node × Effects :=
  let r := handle_request N sha acc.1 req
  (r.1, Effects.append acc.2 r.2)

/-- `Node::handle_new_view`, node.rs lines 452-479: adopt any view `≥` the
current one, clear the view-change machinery, and — when new primary with
queued requests — replay the pending requests (a snapshot of the queue, as
the source iterates over a clone). -/
def handle_new_view (N : Nat) (sha : String → String) (n : Node)
    (msg : PBFTMessage) : Node × Effects :=
  match msg with
  | .NewView view _ =>
      if n.view ≤ view then
        let n := { n with
          view := view, view_change_in_progress := false,
          sequence_number := 0, digest := "",
          state := { n.state with view_change_messages := [] },
          new_view_timer := false }
        if is_primary N n ∧ n.pending_requests.isEmpty = false then
          n.pending_requests.foldl (replay_request N sha) (n, Effects.none)
        else (n, Effects.none)
      else (n, Effects.none)
  | _ => (n, Effects.none)

/-- `Node::start_view_change`, node.rs lines 385-409: mark the view change
in progress, bump the view, reset the in-flight slot, broadcast a ViewChange
(with `last_sequence_number` read after the reset, hence 0) and append it
locally; arm the new-view timer. -/
def start_view_change (n : Node) : Node × Effects :=
  let n := { n with
    view_change_in_progress := true, view := n.view + 1,
    sequence_number := 0, digest := "" }
  let vc := PBFTMessage.ViewChange n.view n.sequence_number n.id
  ({ n with
      state := { n.state with
        view_change_messages := n.state.view_change_messages ++ [vc] },
      new_view_timer := true },
   ⟨[stampView n.view vc], []⟩)

/-- `Node::handle_timeout`, node.rs lines 376-383.  The wall-clock guard
(`Instant::now() - last_message_time >= timeout_duration`) is modelled as
the timeout event having genuinely fired. -/
def handle_timeout (n : Node) : Node × Effects :=
  if n.view_change_in_progress = false then start_view_change n
  else (n, Effects.none)

/-- Modelled contract of `ed25519_dalek::PublicKey::from_bytes` (used at
node.rs line 187): succeeds only on exactly 32 bytes.  (The library
additionally rejects byte strings that are not a valid curve point; every
concrete failing input used below fails the length check, on which model
and library agree.) -/
def pubkeyDecodeOk (b : List Nat) : Bool := b.length = 32

/-- Modelled contract of `ed25519_dalek::Signature::from_bytes` (used at
node.rs line 144): succeeds only on exactly 64 bytes.  (The library
additionally imposes canonicity checks; every concrete failing input used
below fails the length check, on which model and library agree.) -/
def sigDecodeOk (b : List Nat) : Bool := b.length = 64

/-- `HashMap::insert` on the public-key directory. -/
def insertKey (ks : List (Nat × List Nat)) (i : Nat) (k : List Nat) :
    List (Nat × List Nat) :=
  if ks.any fun p => p.1 = i then ks.map fun p => if p.1 = i then (i, k) else p
  else ks ++ [(i, k)]

/-- `HashMap::get` on the public-key directory. -/
def lookupKey (ks : List (Nat × List Nat)) (i : Nat) : Option (List Nat) :=
  (ks.find? fun p => p.1 = i).map Prod.snd

/-- `Node::process_message`, node.rs lines 165-198: dispatch to the
per-variant handler.  The PubKey branch models the
`PublicKey::from_bytes(..).unwrap()` panic as `none`.  A SignedMessage
reaching this dispatcher falls into the debug catch-all and is dropped. -/
def process_message (F N : Nat) (sha : String → String) (n : Node)
    (msg : PBFTMessage) : Option (Node × Effects) :=
  match msg with
  | .PrePrepare _ _ _ => some (handle_preprepare N n msg)
  | .Prepare _ _ _ _ => handle_prepare F n msg
  | .Commit _ _ _ => some (handle_commit F n msg)
  | .ViewChange _ _ _ => some (handle_view_change F N n msg)
  | .NewView _ _ => some (handle_new_view N sha n msg)
  | .ByzantineVote suspected_id sender_id =>
      some (handle_byzantine_vote F n suspected_id sender_id)
  | .PubKey node_id public_key =>
      if pubkeyDecodeOk public_key then
        some ({ n with public_keys := insertKey n.public_keys node_id public_key },
              Effects.none)
      else none
  | .Request _ => some (handle_request N sha n msg)
  | .SignedMessage _ _ _ => some (n, Effects.none)

/-- The sender-attribution used by the blacklist check in
`Node::handle_message`, node.rs lines 126-131: SignedMessage and
ByzantineVote carry their sender, PubKey its node id, and every other
variant is attributed to the replica's own id. -/
def sender_of (selfId : Nat) : PBFTMessage → Nat
  | .SignedMessage _ _ sid => sid
  | .ByzantineVote _ sid => sid
  | .PubKey nid _ => nid
  | _ => selfId

/-- `Node::handle_message`, node.rs lines 121-163.  The source's explicit
work queue holds at most one message at a time (each iteration pops one and
pushes at most the one unwrapped inner message), so the loop is equivalent
to this recursion on the message.  `verify pk inner sig` abstracts
`pubkey.verify(serde_json::to_vec(&inner), &sig).is_ok()`.  `none` models
the `Signature::from_bytes(..).unwrap()` panic (and the PubKey decode panic
inside `process_message`). -/
def handle_message (F N : Nat) (sha : String → String)
    (verify : List Nat → PBFTMessage → List Nat → Bool) (n : Node) :
    PBFTMessage → Option (Node × Effects)
  | .SignedMessage inner sig sid =>
      if sender_of n.id (.SignedMessage inner sig sid) ∈ n.blacklist then
        some (n, Effects.none)
      else
        match lookupKey n.public_keys sid with
        | some pk =>
            if sigDecodeOk sig then
              if verify pk inner sig then handle_message F N sha verify n inner
              else some (n, Effects.none)
            else none
        | Option.none => some (n, Effects.none)
  | msg =>
      if sender_of n.id msg ∈ n.blacklist then some (n, Effects.none)
      else process_message F N sha n msg

/-- Drive a replica through a list of inbound messages (the replica's
receive loop, node.rs lines 105-118, without timeouts), stopping with
`none` if any handling panics. -/
def runMessages (F N : Nat) (sha : String → String)
    (verify : List Nat → PBFTMessage → List Nat → Bool) :
    Node → List PBFTMessage → Option Node
  | n, [] => some n
  | n, m :: rest =>
      match handle_message F N sha verify n m with
      | Option.none => none
      | some (n', _) => runMessages F N sha verify n' rest

/-! ## Spec-side readings

These definitions follow the words of the specification (not the code);
they are the refinement targets the claims compare the handlers against. -/

/-- Spec §4.2, quorum table: the distinct senders that support digest `d`
across accumulated Prepare messages for `(view, seq)`. -/
def prepare_senders (view seq : Nat) (d : String) (msgs : List PBFTMessage) :
    Finset Nat :=
  (msgs.filterMap fun m =>
    match m with
    | .Prepare v s d' i => if v = view ∧ s = seq ∧ d' = d then some i else none
    | _ => none).toFinset

/-- Spec §4.3: the distinct senders that contributed digest `d` in any
accumulated Prepare (no view/sequence filter — what the detection code
actually tallies). -/
def digest_senders (d : String) (msgs : List PBFTMessage) : Finset Nat :=
  (msgs.filterMap fun m =>
    match m with
    | .Prepare _ _ d' i => if d' = d then some i else none
    | _ => none).toFinset

/-- The digests occurring among accumulated Prepare messages (with
multiplicity; used only as a finite quantification domain). -/
def prepare_digest_list (msgs : List PBFTMessage) : List String :=
  msgs.filterMap fun m =>
    match m with
    | .Prepare _ _ d _ => some d
    | _ => none

/-- Spec §4.2, quorum table: the number of accumulated Commit messages
matching `(view, seq, d)`. -/
def commit_matches (view seq : Nat) (d : String) (msgs : List PBFTMessage) :
    Nat :=
  (msgs.filter fun m =>
    match m with
    | .Commit v s d' => decide (v = view ∧ s = seq ∧ d' = d)
    | _ => false).length

/-- Spec-side: did sender `j` contribute any Prepare for `(view, seq)`? -/
def sent_prepare_for (view seq j : Nat) (msgs : List PBFTMessage) : Bool :=
  msgs.any fun m =>
    match m with
    | .Prepare v s _ i => decide (v = view ∧ s = seq ∧ i = j)
    | _ => false

/-- Correctness invariant of the association-list tally: after processing
the pair list `ps`, keys are distinct, each entry is a nonempty
duplicate-free sender list, membership in an entry is exactly
pair-membership in `ps`, and every key occurring in `ps` has an entry. -/
def GroupInv (ps : List (String × Nat)) (acc : List (String × List Nat)) :
    Prop :=
  (acc.map Prod.fst).Nodup ∧
  (∀ d l, (d, l) ∈ acc → l ≠ [] ∧ l.Nodup ∧ ∀ j, (j ∈ l ↔ (d, j) ∈ ps)) ∧
  (∀ d j, (d, j) ∈ ps → d ∈ acc.map Prod.fst)

/-- A trivially succeeding signature verifier, used to instantiate the
abstract `verify` parameter in concrete runs (signature contents are
irrelevant to the properties evaluated there). -/
def alwaysVerify : List Nat → PBFTMessage → List Nat → Bool := fun _ _ _ => true

/-- Is the top-level variant one of those the blacklist check attributes to
its true originator (SignedMessage, ByzantineVote, PubKey)?  Everything
else is a "bare" message, attributed to the replica itself. -/
def isBare : PBFTMessage → Bool
  | .SignedMessage _ _ _ => false
  | .ByzantineVote _ _ => false
  | .PubKey _ _ => false
  | _ => true

/-! ## Concrete instances used by the claim theorems and witnesses -/

/-- C1 scenario: replica 3 in view 0, in-flight sequence 1, already holding
a Prepare for (0, 1, "d") from sender 1. -/
def c1node : Node :=
  { initNode 3 0 [] false with
    sequence_number := 1, digest := "d",
    state := { initState with messages := [.Prepare 0 1 "d" 1] } }

/-- C2 counterexample scenario: replica 3, Prepared for (1, "d") (hence its
own Commit for (0, 1, "d") was broadcast), already holding one matching
Commit from a peer. -/
def c2node : Node :=
  { initNode 3 0 [] false with
    sequence_number := 1, digest := "d",
    state := { initState with
      prepared := {(1, "d")}, messages := [.Commit 0 1 "d"] } }

/-- C2 witness scenario: replica 3 with two matching Commits already
accumulated; the third arrives. -/
def c2wnode : Node :=
  { initNode 3 0 [] false with
    sequence_number := 1, digest := "d",
    state := { initState with
      messages := [.Commit 0 1 "d", .Commit 0 1 "d"] } }

/-- C3 scenario: three bare Commit messages for the boot in-flight slot
(view 0, seq 0, digest ""). -/
def c3msgs : List PBFTMessage := [.Commit 0 0 "", .Commit 0 0 "", .Commit 0 0 ""]

/-- C4 scenario node (fresh replica 0) and duplicate message. -/
def c4node : Node := initNode 0 0 [] false

/-- C4 duplicated Prepare. -/
def c4msg : PBFTMessage := .Prepare 0 0 "d" 1

/-- Result of handling `c4msg` once on `c4node`. -/
def c4once : Node × Effects :=
  (handle_prepare specF c4node c4msg).getD (c4node, Effects.none)

/-- Result of handling `c4msg` a second time. -/
def c4twice : Node × Effects :=
  (handle_prepare specF c4once.1 c4msg).getD (c4node, Effects.none)

/-- C5 scenario: fresh non-primary honest replica 1 in view 0 (primary of
view 0 is 0). -/
def c5node : Node := initNode 1 0 [] false

/-- C6 scenario: replica 0 knowing a 32-byte public key for peer 1. -/
def c6node : Node := initNode 0 0 [(1, List.replicate 32 0)] false

/-- C8 scenario: replica 0 in view 0, in-flight sequence 1, holding two
Prepares for the current slot with digest "a" and one stale Prepare
(view 99, seq 99, digest "z") from sender 7. -/
def c8node : Node :=
  { initNode 0 0 [] false with
    sequence_number := 1, digest := "a",
    state := { initState with
      messages := [.Prepare 0 1 "a" 1, .Prepare 0 1 "a" 2,
                   .Prepare 99 99 "z" 7] } }

/-- The Prepare whose receipt triggers Byzantine detection in the C8
scenario. -/
def c8msg : PBFTMessage := .Prepare 0 1 "b" 3

/-- The accumulated message log of the C8 scenario after the push. -/
def c8msgs : List PBFTMessage := c8node.state.messages ++ [c8msg]

/-- The C8 handler result (defined for the scenario, where `handle_prepare`
does not panic). -/
def c8res : Node × Effects :=
  (handle_prepare specF c8node c8msg).getD (c8node, Effects.none)

/-- C9 scenario: three ByzantineVotes naming suspect 2, from distinct
accusers 1, 3 and 0. -/
def c9msgs : List PBFTMessage :=
  [.ByzantineVote 2 1, .ByzantineVote 2 3, .ByzantineVote 2 0]

/-- The replica reached by the C9 scenario from a boot state. -/
def c9node : Node :=
  (runMessages specF specN id alwaysVerify (initNode 0 0 [] false) c9msgs).getD
    (initNode 0 0 [] false)

/-- C10 scenario: three ByzantineVotes naming the replica's own id 0, from
distinct accusers 1, 2 and 3 — after which the replica has blacklisted
itself. -/
def c10msgs : List PBFTMessage :=
  [.ByzantineVote 0 1, .ByzantineVote 0 2, .ByzantineVote 0 3]

/-- The self-blacklisted replica reached by the C10 scenario. -/
def c10node : Node :=
  (runMessages specF specN id alwaysVerify (initNode 0 0 [] false) c10msgs).getD
    (initNode 0 0 [] false)

/-- C7 witness node: replica 2 idle in view 5. -/
def c7node : Node := initNode 2 5 [] false

/-! ## Frame lemmas: which fields each handler can touch -/

theorem handle_request_frame (N : Nat) (sha : String → String) (n : Node)
    (m : PBFTMessage) :
    (handle_request N sha n m).1.view = n.view ∧
    (handle_request N sha n m).1.state = n.state ∧
    (handle_request N sha n m).1.blacklist = n.blacklist := by
  cases m <;> unfold handle_request <;> dsimp only <;> (try split) <;>
    exact ⟨rfl, rfl, rfl⟩

theorem replay_foldl_frame (N : Nat) (sha : String → String) :
    ∀ (l : List PBFTMessage) (acc : Node × Effects),
      (l.foldl (replay_request N sha) acc).1.view = acc.1.view ∧
      (l.foldl (replay_request N sha) acc).1.state = acc.1.state ∧
      (l.foldl (replay_request N sha) acc).1.blacklist = acc.1.blacklist := by
  intro l
  induction l with
  | nil => intro acc; exact ⟨rfl, rfl, rfl⟩
  | cons req rest ih =>
      intro acc
      obtain ⟨h1, h2, h3⟩ := ih (replay_request N sha acc req)
      obtain ⟨g1, g2, g3⟩ := handle_request_frame N sha acc.1 req
      simp only [List.foldl_cons]
      exact ⟨h1.trans g1, h2.trans g2, h3.trans g3⟩

theorem handle_preprepare_frame (N : Nat) (n : Node) (m : PBFTMessage) :
    (handle_preprepare N n m).1.state = n.state ∧
    (handle_preprepare N n m).1.view = n.view ∧
    (handle_preprepare N n m).1.blacklist = n.blacklist := by
  cases m <;> unfold handle_preprepare <;> dsimp only <;> (try split) <;>
    exact ⟨rfl, rfl, rfl⟩

theorem detect_byzantine_nodes_frame (n : Node) (msgs : List PBFTMessage)
    (n' : Node) (e : Effects) (h : detect_byzantine_nodes n msgs = some (n', e)) :
    n'.state = n.state ∧ n'.view = n.view ∧
    n'.sequence_number = n.sequence_number ∧ n'.digest = n.digest ∧
    n'.blacklist = n.blacklist := by
  unfold detect_byzantine_nodes at h
  dsimp only at h
  split at h
  · exact absurd h (by simp)
  · simp only [Option.some.injEq, Prod.mk.injEq] at h
    obtain ⟨h1, -⟩ := h
    subst h1
    exact ⟨rfl, rfl, rfl, rfl, rfl⟩

theorem handle_prepare_frame (F : Nat) (n : Node) (msg : PBFTMessage)
    (n' : Node) (e : Effects) (h : handle_prepare F n msg = some (n', e)) :
    n'.state.messages = n.state.messages ++ [msg] ∧
    n'.view = n.view ∧
    n'.sequence_number = n.sequence_number ∧
    n'.digest = n.digest ∧
    n'.blacklist = n.blacklist ∧
    n'.state.byzantine_votes = n.state.byzantine_votes ∧
    n'.state.view_change_messages = n.state.view_change_messages ∧
    n'.state.committed = n.state.committed := by
  unfold handle_prepare at h
  dsimp only at h
  split at h
  · exact absurd h (by simp)
  · rename_i na ea heq
    have hframe : na.state = { n.state with messages := n.state.messages ++ [msg] } ∧
        na.view = n.view ∧ na.sequence_number = n.sequence_number ∧
        na.digest = n.digest ∧ na.blacklist = n.blacklist := by
      split at heq
      · exact detect_byzantine_nodes_frame _ _ _ _ heq
      · simp only [Option.some.injEq, Prod.mk.injEq] at heq
        obtain ⟨h1, -⟩ := heq
        subst h1
        exact ⟨rfl, rfl, rfl, rfl, rfl⟩
    obtain ⟨f1, f2, f3, f4, f5⟩ := hframe
    split at h
    · split at h
      · exact absurd h (by simp)
      · split at h
        · simp only [Option.some.injEq, Prod.mk.injEq] at h
          obtain ⟨h1, -⟩ := h
          subst h1
          exact ⟨by rw [f1], f2, f3, f4, f5, by rw [f1], by rw [f1], by rw [f1]⟩
        · simp only [Option.some.injEq, Prod.mk.injEq] at h
          obtain ⟨h1, -⟩ := h
          subst h1
          refine ⟨by simp [f1], f2, f3, f4, f5, by simp [f1], by simp [f1], by simp [f1]⟩
    · simp only [Option.some.injEq, Prod.mk.injEq] at h
      obtain ⟨h1, -⟩ := h
      subst h1
      exact ⟨by rw [f1], f2, f3, f4, f5, by rw [f1], by rw [f1], by rw [f1]⟩

theorem handle_commit_frame (F : Nat) (n : Node) (msg : PBFTMessage) :
    (handle_commit F n msg).1.state.messages = n.state.messages ++ [msg] ∧
    (handle_commit F n msg).1.view = n.view ∧
    (handle_commit F n msg).1.sequence_number = n.sequence_number ∧
    (handle_commit F n msg).1.digest = n.digest ∧
    (handle_commit F n msg).1.blacklist = n.blacklist ∧
    (handle_commit F n msg).1.state.byzantine_votes = n.state.byzantine_votes ∧
    (handle_commit F n msg).1.state.view_change_messages =
      n.state.view_change_messages ∧
    (handle_commit F n msg).1.state.prepared = n.state.prepared := by
  unfold handle_commit
  dsimp only
  split
  · split <;> exact ⟨rfl, rfl, rfl, rfl, rfl, rfl, rfl, rfl⟩
  · exact ⟨rfl, rfl, rfl, rfl, rfl, rfl, rfl, rfl⟩

theorem handle_byzantine_vote_spec (F : Nat) (n : Node) (a b : Nat) :
    ((handle_byzantine_vote F n a b).1.state.byzantine_votes =
      fun s => if s = a then insert b (n.state.byzantine_votes a)
               else n.state.byzantine_votes s) ∧
    ((handle_byzantine_vote F n a b).1.blacklist =
      if 2 * F + 1 ≤ (insert b (n.state.byzantine_votes a)).card
      then insert a n.blacklist else n.blacklist) ∧
    (handle_byzantine_vote F n a b).1.view = n.view ∧
    (handle_byzantine_vote F n a b).1.state.messages = n.state.messages ∧
    (handle_byzantine_vote F n a b).1.state.prepared = n.state.prepared ∧
    (handle_byzantine_vote F n a b).1.state.committed = n.state.committed ∧
    (handle_byzantine_vote F n a b).1.state.view_change_messages =
      n.state.view_change_messages := by
  unfold handle_byzantine_vote
  dsimp only
  split <;> exact ⟨rfl, rfl, rfl, rfl, rfl, rfl, rfl⟩

theorem handle_view_change_frame (F N : Nat) (n : Node) (m : PBFTMessage) :
    (handle_view_change F N n m).1.view = n.view ∧
    (handle_view_change F N n m).1.blacklist = n.blacklist ∧
    (handle_view_change F N n m).1.state.byzantine_votes =
      n.state.byzantine_votes ∧
    (handle_view_change F N n m).1.state.messages = n.state.messages ∧
    (handle_view_change F N n m).1.state.prepared = n.state.prepared ∧
    (handle_view_change F N n m).1.state.committed = n.state.committed := by
  cases m <;> unfold handle_view_change send_new_view <;> dsimp only <;>
    (try split) <;> (try split) <;> exact ⟨rfl, rfl, rfl, rfl, rfl, rfl⟩

theorem handle_new_view_frame (N : Nat) (sha : String → String) (n : Node)
    (m : PBFTMessage) :
    n.view ≤ (handle_new_view N sha n m).1.view ∧
    (handle_new_view N sha n m).1.blacklist = n.blacklist ∧
    (handle_new_view N sha n m).1.state.byzantine_votes =
      n.state.byzantine_votes ∧
    (handle_new_view N sha n m).1.state.messages = n.state.messages ∧
    (handle_new_view N sha n m).1.state.prepared = n.state.prepared ∧
    (handle_new_view N sha n m).1.state.committed = n.state.committed := by
  cases m with
  | NewView v vcs =>
      unfold handle_new_view
      dsimp only
      split
      · rename_i hle
        split
        · refine ⟨?_, ?_, ?_, ?_, ?_, ?_⟩
          · rw [(replay_foldl_frame N sha _ _).1]; exact hle
          · rw [(replay_foldl_frame N sha _ _).2.2]
          · rw [(replay_foldl_frame N sha _ _).2.1]
          · rw [(replay_foldl_frame N sha _ _).2.1]
          · rw [(replay_foldl_frame N sha _ _).2.1]
          · rw [(replay_foldl_frame N sha _ _).2.1]
        · exact ⟨hle, rfl, rfl, rfl, rfl, rfl⟩
      · exact ⟨le_refl _, rfl, rfl, rfl, rfl, rfl⟩
  | Request o => exact ⟨le_refl _, rfl, rfl, rfl, rfl, rfl⟩
  | PrePrepare v s d => exact ⟨le_refl _, rfl, rfl, rfl, rfl, rfl⟩
  | Prepare v s d i => exact ⟨le_refl _, rfl, rfl, rfl, rfl, rfl⟩
  | Commit v s d => exact ⟨le_refl _, rfl, rfl, rfl, rfl, rfl⟩
  | ViewChange v l i => exact ⟨le_refl _, rfl, rfl, rfl, rfl, rfl⟩
  | PubKey i k => exact ⟨le_refl _, rfl, rfl, rfl, rfl, rfl⟩
  | SignedMessage msg sig sid => exact ⟨le_refl _, rfl, rfl, rfl, rfl, rfl⟩
  | ByzantineVote a b => exact ⟨le_refl _, rfl, rfl, rfl, rfl, rfl⟩

theorem start_view_change_spec (n : Node) :
    (start_view_change n).1.view = n.view + 1 ∧
    (start_view_change n).1.view_change_in_progress = true ∧
    (start_view_change n).1.sequence_number = 0 ∧
    (start_view_change n).1.digest = "" ∧
    (start_view_change n).2.broadcasts = [.ViewChange (n.view + 1) 0 n.id] ∧
    (start_view_change n).1.state.view_change_messages =
      n.state.view_change_messages ++ [.ViewChange (n.view + 1) 0 n.id] ∧
    (start_view_change n).1.blacklist = n.blacklist ∧
    (start_view_change n).1.state.byzantine_votes = n.state.byzantine_votes :=
  ⟨rfl, rfl, rfl, rfl, rfl, rfl, rfl, rfl⟩

/-! ## Claim theorems -/

/-- **C1** (code-bug evidence).  The claim: a digest supported by at least
`2F` distinct Prepare senders for the current `(v, s)` moves the replica to
Prepared, persists, and triggers a Commit broadcast, the quorum being
counted over distinct Prepare senders.  In the code, the tally inserts
`self.id` instead of the Prepare's sender (node.rs line 268 discards the
sender with `..` and line 268 inserts `self.id`), so no digest ever counts
more than one supporter.  Here digest "d" is supported by `2F = 2` distinct
senders (1 and 2) for the current slot `(0, 1)`, yet handling the second
Prepare inserts nothing into `prepared`, persists nothing and broadcasts
nothing. -/
theorem c1_prepare_quorum_counts_self :
    2 * specF ≤ (prepare_senders 0 1 "d"
        (c1node.state.messages ++ [.Prepare 0 1 "d" 2])).card ∧
    ((handle_prepare specF c1node (.Prepare 0 1 "d" 2)).map
        fun p => p.1.state.prepared) = some ∅ ∧
    ((handle_prepare specF c1node (.Prepare 0 1 "d" 2)).map
        fun p => p.2.broadcasts) = some [] ∧
    ((handle_prepare specF c1node (.Prepare 0 1 "d" 2)).map
        fun p => p.2.saves.length) = some 0 := by
  refine ⟨by decide, by decide, rfl, rfl⟩

/-- **C2 counterexample**.  The claim counts the replica's own Commit toward
the `2F+1` threshold.  Replica `c2node` is Prepared for `(1, "d")` — so by
the protocol it broadcast its own Commit `(0, 1, "d")` — and, after handling
a second matching Commit from a peer, holds `2F = 2` received matching
Commits; with the own Commit the claim's tally reaches `2F+1 = 3`, yet the
code counts only the received messages and does not commit. -/
theorem c2_own_commit_not_counted :
    (1, "d") ∈ c2node.state.prepared ∧
    commit_matches 0 1 "d"
        ((handle_commit specF c2node (.Commit 0 1 "d")).1.state.messages) + 1 =
      2 * specF + 1 ∧
    (1, "d") ∉ (handle_commit specF c2node (.Commit 0 1 "d")).1.state.committed := by
  refine ⟨by decide, by decide, by decide⟩

/-- **C3** (code-bug evidence).  The claim (spec §3, §8): `committed ⊆
prepared` at every replica after every sequence of handled messages.  A boot
replica that receives three bare Commits for its boot in-flight slot
`(view 0, seq 0, digest "")` inserts `(0, "")` into `committed` while
`prepared` stays empty: `handle_commit` never checks `prepared`. -/
theorem c3_commit_without_prepare :
    ((runMessages specF specN id alwaysVerify (initNode 1 0 [] false) c3msgs).map
        fun n => (decide ((0, "") ∈ n.state.committed),
                  decide ((0, "") ∈ n.state.prepared),
                  decide (n.state.committed ⊆ n.state.prepared))) =
      some (true, false, false) := by decide

/-- **C4 counterexample**.  The claim: handling the same Prepare twice
leaves the persisted state equal to handling it once.  `handle_prepare`
pushes the message onto the persisted `messages` log unconditionally, so
the log has length 2 after two handlings and length 1 after one, and the
persisted states differ. -/
theorem c4_double_handling_not_idempotent :
    ((handle_prepare specF c4node c4msg).map
        fun p => p.1.state.messages.length) = some 1 ∧
    (((handle_prepare specF c4node c4msg).bind
        fun p => handle_prepare specF p.1 c4msg).map
        fun p => p.1.state.messages.length) = some 2 ∧
    (((handle_prepare specF c4node c4msg).bind
        fun p => handle_prepare specF p.1 c4msg).map fun p => p.1.state) ≠
      ((handle_prepare specF c4node c4msg).map fun p => p.1.state) := by
  refine ⟨rfl, rfl, fun h => ?_⟩
  have h2 := congrArg (Option.map fun st : NodeState => st.messages.length) h
  exact absurd h2 (by decide)

/-- **C5 counterexample**.  The claim includes that the replica "appends its
own Prepare to its accumulated messages".  A fresh non-primary honest
replica handling PrePrepare `(0, 5, "d")` adopts the sequence number and
digest and broadcasts its Prepare, but its accumulated `messages` log stays
empty — the code never pushes the own Prepare locally (and `broadcast`
skips self), node.rs lines 242-250. -/
theorem c5_own_prepare_not_logged :
    (handle_preprepare specN c5node (.PrePrepare 0 5 "d")).1.sequence_number = 5 ∧
    (handle_preprepare specN c5node (.PrePrepare 0 5 "d")).1.digest = "d" ∧
    (handle_preprepare specN c5node (.PrePrepare 0 5 "d")).2.broadcasts =
      [.Prepare 0 5 "d" c5node.id] ∧
    (handle_preprepare specN c5node (.PrePrepare 0 5 "d")).1.state.messages = [] :=
  ⟨rfl, rfl, rfl, rfl⟩

/-- **C6** (code-bug evidence).  The claim: handling is total; malformed
signature bytes and arbitrary PubKey bytes are logged and discarded, never
panicking.  In the code, `Signature::from_bytes(&signature).unwrap()`
(node.rs line 144) runs before verification and panics on malformed bytes
(here: an empty signature from a known sender), and
`PublicKey::from_bytes(&public_key).unwrap()` (node.rs line 187) panics on
arbitrary key bytes (here: an empty key).  `none` is the model's panic. -/
theorem c6_malformed_bytes_panic :
    handle_message specF specN id alwaysVerify c6node
      (.SignedMessage (.Prepare 0 0 "d" 1) [] 1) = none ∧
    process_message specF specN id c6node (.PubKey 2 []) = none :=
  ⟨rfl, rfl⟩

/-- **C10 counterexample**.  The claim: a bare (non-Signed, non-Vote,
non-PubKey) message is never dropped by the blacklist check.  The check
attributes bare messages to the replica's own id, and a replica can
blacklist itself (2F+1 accusers naming it, reachable here from boot via
`c10msgs`); afterwards a bare Prepare is dropped before dispatch — the
node is returned unchanged and the Prepare is not pushed onto the log. -/
theorem c10_self_blacklist_drops_bare :
    runMessages specF specN id alwaysVerify (initNode 0 0 [] false) c10msgs =
      some c10node ∧
    c10node.id ∈ c10node.blacklist ∧
    isBare (.Prepare 0 0 "d" 1) = true ∧
    handle_message specF specN id alwaysVerify c10node (.Prepare 0 0 "d" 1) =
      some (c10node, Effects.none) ∧
    ((handle_message specF specN id alwaysVerify c10node
        (.Prepare 0 0 "d" 1)).map fun p => p.1.state.messages.length) = some 0 := by
  refine ⟨rfl, by decide, rfl, rfl, rfl⟩

end RustPBFT

namespace RustPBFT

/-! ## Dispatch, view-monotonicity and blacklist lemmas -/

theorem process_message_view_mono (F N : Nat) (sha : String → String)
    (n : Node) (m : PBFTMessage) (n' : Node) (e : Effects)
    (h : process_message F N sha n m = some (n', e)) : n.view ≤ n'.view := by
  cases m with
  | Request o =>
      simp only [process_message, Option.some.injEq] at h
      have h1 := congrArg Prod.fst h
      dsimp only at h1
      rw [← h1]
      exact le_of_eq (handle_request_frame N sha n _).1.symm
  | PrePrepare v s d =>
      simp only [process_message, Option.some.injEq] at h
      have h1 := congrArg Prod.fst h
      dsimp only at h1
      rw [← h1]
      exact le_of_eq (handle_preprepare_frame N n _).2.1.symm
  | Prepare v s d i =>
      simp only [process_message] at h
      exact le_of_eq (handle_prepare_frame F n _ n' e h).2.1.symm
  | Commit v s d =>
      simp only [process_message, Option.some.injEq] at h
      have h1 := congrArg Prod.fst h
      dsimp only at h1
      rw [← h1]
      exact le_of_eq (handle_commit_frame F n _).2.1.symm
  | ViewChange v l i =>
      simp only [process_message, Option.some.injEq] at h
      have h1 := congrArg Prod.fst h
      dsimp only at h1
      rw [← h1]
      exact le_of_eq (handle_view_change_frame F N n _).1.symm
  | NewView v vcs =>
      simp only [process_message, Option.some.injEq] at h
      have h1 := congrArg Prod.fst h
      dsimp only at h1
      rw [← h1]
      exact (handle_new_view_frame N sha n _).1
  | ByzantineVote a b =>
      simp only [process_message, Option.some.injEq] at h
      have h1 := congrArg Prod.fst h
      dsimp only at h1
      rw [← h1]
      exact le_of_eq (handle_byzantine_vote_spec F n a b).2.2.1.symm
  | PubKey i k =>
      simp only [process_message] at h
      split at h
      · simp only [Option.some.injEq] at h
        have h1 := congrArg Prod.fst h
        dsimp only at h1
        rw [← h1]
      · exact absurd h (by simp)
  | SignedMessage a b c =>
      simp only [process_message, Option.some.injEq] at h
      have h1 := congrArg Prod.fst h
      dsimp only at h1
      rw [← h1]

theorem process_message_blacklist_inv (F N : Nat) (sha : String → String)
    (n : Node) (m : PBFTMessage) (n' : Node) (e : Effects)
    (h : process_message F N sha n m = some (n', e))
    (hinv : ∀ s, s ∈ n.blacklist ↔ 2 * F + 1 ≤ (n.state.byzantine_votes s).card) :
    ∀ s, s ∈ n'.blacklist ↔ 2 * F + 1 ≤ (n'.state.byzantine_votes s).card := by
  cases m with
  | Request o =>
      simp only [process_message, Option.some.injEq] at h
      have h1 := congrArg Prod.fst h
      dsimp only at h1
      rw [← h1]
      obtain ⟨-, h2, h3⟩ := handle_request_frame N sha n _
      intro s; rw [h2, h3]; exact hinv s
  | PrePrepare v s d =>
      simp only [process_message, Option.some.injEq] at h
      have h1 := congrArg Prod.fst h
      dsimp only at h1
      rw [← h1]
      obtain ⟨h2, -, h3⟩ := handle_preprepare_frame N n _
      intro s; rw [h2, h3]; exact hinv s
  | Prepare v s d i =>
      simp only [process_message] at h
      obtain ⟨-, -, -, -, h5, h6, -, -⟩ := handle_prepare_frame F n _ n' e h
      intro s; rw [h5, h6]; exact hinv s
  | Commit v s d =>
      simp only [process_message, Option.some.injEq] at h
      have h1 := congrArg Prod.fst h
      dsimp only at h1
      rw [← h1]
      obtain ⟨-, -, -, -, h5, h6, -, -⟩ := handle_commit_frame F n _
      intro s; rw [h5, h6]; exact hinv s
  | ViewChange v l i =>
      simp only [process_message, Option.some.injEq] at h
      have h1 := congrArg Prod.fst h
      dsimp only at h1
      rw [← h1]
      obtain ⟨-, h2, h3, -, -, -⟩ := handle_view_change_frame F N n _
      intro s; rw [h2, h3]; exact hinv s
  | NewView v vcs =>
      simp only [process_message, Option.some.injEq] at h
      have h1 := congrArg Prod.fst h
      dsimp only at h1
      rw [← h1]
      obtain ⟨-, h2, h3, -, -, -⟩ := handle_new_view_frame N sha n _
      intro s; rw [h2, h3]; exact hinv s
  | PubKey i k =>
      simp only [process_message] at h
      split at h
      · simp only [Option.some.injEq] at h
        have h1 := congrArg Prod.fst h
        dsimp only at h1
        rw [← h1]
        exact hinv
      · exact absurd h (by simp)
  | SignedMessage a b c =>
      simp only [process_message, Option.some.injEq] at h
      have h1 := congrArg Prod.fst h
      dsimp only at h1
      rw [← h1]
      exact hinv
  | ByzantineVote a b =>
      simp only [process_message, Option.some.injEq] at h
      have h1 := congrArg Prod.fst h
      dsimp only at h1
      rw [← h1]
      obtain ⟨hbv, hbl, -, -, -, -, -⟩ := handle_byzantine_vote_spec F n a b
      intro s
      rw [hbv, hbl]
      by_cases hs : s = a
      · subst hs
        by_cases hth : 2 * F + 1 ≤ (insert b (n.state.byzantine_votes s)).card
        · simp only [if_pos rfl, if_pos hth]
          exact iff_of_true (Finset.mem_insert_self s n.blacklist) hth
        · simp only [if_pos rfl, if_neg hth]
          constructor
          · intro hmem
            exact absurd (le_trans ((hinv s).1 hmem)
              (Finset.card_le_card (Finset.subset_insert b _))) hth
          · intro hc; exact absurd hc hth
      · by_cases hth : 2 * F + 1 ≤ (insert b (n.state.byzantine_votes a)).card
        · simp only [if_neg hs, if_pos hth, Finset.mem_insert]
          constructor
          · intro hmem
            rcases hmem with hsa | hmem
            · exact absurd hsa hs
            · exact (hinv s).1 hmem
          · intro hc; exact Or.inr ((hinv s).2 hc)
        · simp only [if_neg hs, if_neg hth]
          exact hinv s

theorem handle_message_cases (F N : Nat) (sha : String → String)
    (verify : List Nat → PBFTMessage → List Nat → Bool) :
    ∀ (msg : PBFTMessage) (n : Node),
      handle_message F N sha verify n msg = some (n, Effects.none) ∨
      handle_message F N sha verify n msg = none ∨
      ∃ m, handle_message F N sha verify n msg = process_message F N sha n m
  | .SignedMessage inner sig sid, n => by
      simp only [handle_message]
      split
      · exact Or.inl rfl
      · split
        · split
          · split
            · exact handle_message_cases F N sha verify inner n
            · exact Or.inl rfl
          · exact Or.inr (Or.inl rfl)
        · exact Or.inl rfl
  | .Request o, n => by
      simp only [handle_message]
      split
      · exact Or.inl rfl
      · exact Or.inr (Or.inr ⟨_, rfl⟩)
  | .PrePrepare v s d, n => by
      simp only [handle_message]
      split
      · exact Or.inl rfl
      · exact Or.inr (Or.inr ⟨_, rfl⟩)
  | .Prepare v s d i, n => by
      simp only [handle_message]
      split
      · exact Or.inl rfl
      · exact Or.inr (Or.inr ⟨_, rfl⟩)
  | .Commit v s d, n => by
      simp only [handle_message]
      split
      · exact Or.inl rfl
      · exact Or.inr (Or.inr ⟨_, rfl⟩)
  | .ViewChange v l i, n => by
      simp only [handle_message]
      split
      · exact Or.inl rfl
      · exact Or.inr (Or.inr ⟨_, rfl⟩)
  | .NewView v vcs, n => by
      simp only [handle_message]
      split
      · exact Or.inl rfl
      · exact Or.inr (Or.inr ⟨_, rfl⟩)
  | .PubKey i k, n => by
      simp only [handle_message]
      split
      · exact Or.inl rfl
      · exact Or.inr (Or.inr ⟨_, rfl⟩)
  | .ByzantineVote a b, n => by
      simp only [handle_message]
      split
      · exact Or.inl rfl
      · exact Or.inr (Or.inr ⟨_, rfl⟩)

theorem handle_message_view_mono (F N : Nat) (sha : String → String)
    (verify : List Nat → PBFTMessage → List Nat → Bool) (msg : PBFTMessage)
    (n n' : Node) (e : Effects)
    (h : handle_message F N sha verify n msg = some (n', e)) :
    n.view ≤ n'.view := by
  rcases handle_message_cases F N sha verify msg n with hc | hc | ⟨m, hc⟩
  · rw [hc] at h
    simp only [Option.some.injEq, Prod.mk.injEq] at h
    rw [← h.1]
  · rw [hc] at h; exact absurd h (by simp)
  · rw [hc] at h
    exact process_message_view_mono F N sha n m n' e h

theorem handle_message_blacklist_inv (F N : Nat) (sha : String → String)
    (verify : List Nat → PBFTMessage → List Nat → Bool) (msg : PBFTMessage)
    (n n' : Node) (e : Effects)
    (h : handle_message F N sha verify n msg = some (n', e))
    (hinv : ∀ s, s ∈ n.blacklist ↔ 2 * F + 1 ≤ (n.state.byzantine_votes s).card) :
    ∀ s, s ∈ n'.blacklist ↔ 2 * F + 1 ≤ (n'.state.byzantine_votes s).card := by
  rcases handle_message_cases F N sha verify msg n with hc | hc | ⟨m, hc⟩
  · rw [hc] at h
    simp only [Option.some.injEq, Prod.mk.injEq] at h
    rw [← h.1]
    exact hinv
  · rw [hc] at h; exact absurd h (by simp)
  · rw [hc] at h
    exact process_message_blacklist_inv F N sha n m n' e h hinv

theorem runMessages_blacklist_inv (F N : Nat) (sha : String → String)
    (verify : List Nat → PBFTMessage → List Nat → Bool) :
    ∀ (msgs : List PBFTMessage) (n n' : Node),
      runMessages F N sha verify n msgs = some n' →
      (∀ s, s ∈ n.blacklist ↔ 2 * F + 1 ≤ (n.state.byzantine_votes s).card) →
      ∀ s, s ∈ n'.blacklist ↔ 2 * F + 1 ≤ (n'.state.byzantine_votes s).card := by
  intro msgs
  induction msgs with
  | nil =>
      intro n n' h hinv
      simp only [runMessages, Option.some.injEq] at h
      rw [← h]; exact hinv
  | cons m rest ih =>
      intro n n' h hinv
      rw [runMessages] at h
      split at h
      · exact absurd h (by simp)
      · rename_i n1 e1 heq
        exact ih _ _ h
          (handle_message_blacklist_inv F N sha verify m n n1 e1 heq hinv)

theorem handle_view_change_append (F N : Nat) (n : Node) (v l i : Nat)
    (hv : v = n.view) :
    (handle_view_change F N n (.ViewChange v l i)).1.state.view_change_messages =
      n.state.view_change_messages ++ [.ViewChange v l i] := by
  unfold handle_view_change send_new_view
  dsimp only
  rw [if_pos hv]
  split <;> rfl

end RustPBFT

namespace RustPBFT

/-- **C2 (amended)**: if at least `2F+1` Commit messages matching the
replica's current `(view, sequence_number, digest)` are accumulated after
the push — with only received Commit messages counting; the replica's own
Commit is never delivered to itself and does not enter the tally — then
`(s, d*)` is in `committed` and, when newly inserted, the state is
persisted. -/
theorem c2_commit_threshold_received_only (F : Nat) (n : Node) (v s : Nat)
    (d : String)
    (h : 2 * F + 1 ≤ commit_matches n.view n.sequence_number n.digest
          (n.state.messages ++ [.Commit v s d])) :
    (n.sequence_number, n.digest) ∈
      (handle_commit F n (.Commit v s d)).1.state.committed ∧
    ((n.sequence_number, n.digest) ∉ n.state.committed →
      (handle_commit F n (.Commit v s d)).2.saves =
        [(handle_commit F n (.Commit v s d)).1.state]) := by
  unfold commit_matches at h
  unfold handle_commit
  dsimp only
  rw [if_pos h]
  split
  · rename_i hmem
    exact ⟨hmem, fun hnot => absurd hmem hnot⟩
  · exact ⟨Finset.mem_insert_self _ _, fun _ => rfl⟩

/-- Witness for C2 (amended): on `c2wnode`, handling a third matching
Commit reaches the threshold and `(1, "d")` is committed. -/
theorem c2_commit_threshold_received_only_witness :
    2 * specF + 1 ≤ commit_matches c2wnode.view c2wnode.sequence_number
        c2wnode.digest (c2wnode.state.messages ++ [.Commit 0 1 "d"]) ∧
    (1, "d") ∈ (handle_commit specF c2wnode (.Commit 0 1 "d")).1.state.committed :=
  ⟨by decide,
   (c2_commit_threshold_received_only specF c2wnode 0 1 "d" (by decide)).1⟩

/-- **C4 (amended)**: handling the same PrePrepare twice leaves the
persisted state unchanged (the PrePrepare handler never touches it);
handling the same Prepare, Commit, or current-view ViewChange twice appends
the duplicate to the persisted message log (`messages`, resp.
`view_change_messages`) a second time, so the persisted state after two
handlings differs from the persisted state after one. -/
theorem c4_amended_idempotence (F N : Nat) (n : Node) (v s : Nat)
    (d : String) (i : Nat) :
    ((handle_preprepare N n (.PrePrepare v s d)).1.state = n.state) ∧
    (∀ n₁ e₁ n₂ e₂,
       handle_prepare F n (.Prepare v s d i) = some (n₁, e₁) →
       handle_prepare F n₁ (.Prepare v s d i) = some (n₂, e₂) →
       n₂.state.messages = n₁.state.messages ++ [.Prepare v s d i] ∧
       n₂.state ≠ n₁.state) ∧
    ((handle_commit F (handle_commit F n (.Commit v s d)).1
        (.Commit v s d)).1.state.messages =
       (handle_commit F n (.Commit v s d)).1.state.messages ++ [.Commit v s d] ∧
     (handle_commit F (handle_commit F n (.Commit v s d)).1
        (.Commit v s d)).1.state ≠
       (handle_commit F n (.Commit v s d)).1.state) ∧
    (v = n.view →
       (handle_view_change F N (handle_view_change F N n (.ViewChange v s i)).1
           (.ViewChange v s i)).1.state.view_change_messages =
         (handle_view_change F N n
             (.ViewChange v s i)).1.state.view_change_messages ++
           [.ViewChange v s i] ∧
       (handle_view_change F N (handle_view_change F N n (.ViewChange v s i)).1
           (.ViewChange v s i)).1.state ≠
         (handle_view_change F N n (.ViewChange v s i)).1.state) := by
  refine ⟨(handle_preprepare_frame N n _).1, ?_, ?_, ?_⟩
  · intro n₁ e₁ n₂ e₂ h1 h2
    have hm := (handle_prepare_frame F n₁ _ n₂ e₂ h2).1
    refine ⟨hm, fun heq => ?_⟩
    have := congrArg NodeState.messages heq
    rw [hm] at this
    simp at this
  · have hm := (handle_commit_frame F (handle_commit F n (.Commit v s d)).1
      (.Commit v s d)).1
    refine ⟨hm, fun heq => ?_⟩
    have := congrArg NodeState.messages heq
    rw [hm] at this
    simp at this
  · intro hv
    have hv1 : v = (handle_view_change F N n (.ViewChange v s i)).1.view :=
      hv.trans (handle_view_change_frame F N n _).1.symm
    have hm := handle_view_change_append F N
      (handle_view_change F N n (.ViewChange v s i)).1 v s i hv1
    refine ⟨hm, fun heq => ?_⟩
    have := congrArg NodeState.view_change_messages heq
    rw [hm] at this
    simp at this

/-- Witness for C4 (amended) at the concrete duplicate Prepare / ViewChange
of the C4 scenario. -/
theorem c4_amended_idempotence_witness :
    (handle_preprepare specN c4node (.PrePrepare 0 0 "d")).1.state =
      c4node.state ∧
    c4twice.1.state.messages = c4once.1.state.messages ++ [c4msg] ∧
    (handle_view_change specF specN
        (handle_view_change specF specN c4node (.ViewChange 0 0 1)).1
        (.ViewChange 0 0 1)).1.state.view_change_messages =
      (handle_view_change specF specN c4node
          (.ViewChange 0 0 1)).1.state.view_change_messages ++
        [.ViewChange 0 0 1] :=
  ⟨(c4_amended_idempotence specF specN c4node 0 0 "d" 1).1,
   ((c4_amended_idempotence specF specN c4node 0 0 "d" 1).2.1
      c4once.1 c4once.2 c4twice.1 c4twice.2 rfl rfl).1,
   ((c4_amended_idempotence specF specN c4node 0 0 "d" 1).2.2.2 rfl).1⟩

/-- **C5 (amended)**: a non-primary honest replica receiving PrePrepare
`(v, s, d)` with `v` equal to its view sets `sequence_number = s` and
`digest = d` and broadcasts Prepare `(v, s, d, self.id)` — its persisted
state (in particular the accumulated `messages` log) is unchanged; the own
Prepare is only broadcast, never appended locally.  On a view mismatch or
when primary, the replica is left entirely unchanged. -/
theorem c5_amended_preprepare_transition (N : Nat) (n : Node) (v s : Nat)
    (d : String) :
    (v = n.view → ¬ is_primary N n → n.is_byzantine = false →
       (handle_preprepare N n (.PrePrepare v s d)).1.sequence_number = s ∧
       (handle_preprepare N n (.PrePrepare v s d)).1.digest = d ∧
       (handle_preprepare N n (.PrePrepare v s d)).1.state = n.state ∧
       (handle_preprepare N n (.PrePrepare v s d)).2.broadcasts =
         [.Prepare v s d n.id]) ∧
    (¬ (v = n.view ∧ ¬ is_primary N n) →
       handle_preprepare N n (.PrePrepare v s d) = (n, Effects.none)) := by
  constructor
  · intro hv hp hb
    subst hv
    unfold handle_preprepare
    dsimp only
    rw [if_pos ⟨rfl, hp⟩]
    exact ⟨rfl, rfl, rfl, by simp [stampView, hb]⟩
  · intro hcond
    unfold handle_preprepare
    dsimp only
    rw [if_neg hcond]

/-- Witness for C5 (amended): replica 1 (non-primary, honest) in view 0
adopts the slot and broadcasts on a matching PrePrepare, and ignores a
PrePrepare for a different view. -/
theorem c5_amended_preprepare_transition_witness :
    (handle_preprepare specN c5node (.PrePrepare 0 5 "d")).1.digest = "d" ∧
    (handle_preprepare specN c5node (.PrePrepare 0 5 "d")).2.broadcasts =
      [.Prepare 0 5 "d" c5node.id] ∧
    handle_preprepare specN c5node (.PrePrepare 1 5 "d") = (c5node, Effects.none) :=
  ⟨((c5_amended_preprepare_transition specN c5node 0 5 "d").1 rfl
      (by decide) rfl).2.1,
   ((c5_amended_preprepare_transition specN c5node 0 5 "d").1 rfl
      (by decide) rfl).2.2.2,
   (c5_amended_preprepare_transition specN c5node 1 5 "d").2 (by decide)⟩

/-- **C7**: on a timeout with no view change in progress, the replica marks
the view change in progress, increments its view (strictly), resets
`sequence_number` to 0 and `digest` to the empty string, broadcasts
ViewChange `(new_view, 0, self.id)` and appends it to its local
`view_change_messages`; moreover the view is monotonically non-decreasing
across every message handling and every timeout. -/
theorem c7_view_change_and_monotonicity :
    (∀ n : Node, n.view_change_in_progress = false →
       (handle_timeout n).1.view_change_in_progress = true ∧
       (handle_timeout n).1.view = n.view + 1 ∧
       n.view < (handle_timeout n).1.view ∧
       (handle_timeout n).1.sequence_number = 0 ∧
       (handle_timeout n).1.digest = "" ∧
       (handle_timeout n).2.broadcasts = [.ViewChange (n.view + 1) 0 n.id] ∧
       (handle_timeout n).1.state.view_change_messages =
         n.state.view_change_messages ++ [.ViewChange (n.view + 1) 0 n.id]) ∧
    (∀ (F N : Nat) (sha : String → String)
       (verify : List Nat → PBFTMessage → List Nat → Bool)
       (n : Node) (msg : PBFTMessage) (n' : Node) (e : Effects),
       handle_message F N sha verify n msg = some (n', e) →
       n.view ≤ n'.view) ∧
    (∀ n : Node, n.view ≤ (handle_timeout n).1.view) := by
  refine ⟨?_, ?_, ?_⟩
  · intro n hvc
    unfold handle_timeout
    rw [if_pos hvc]
    obtain ⟨s1, s2, s3, s4, s5, s6, -, -⟩ := start_view_change_spec n
    exact ⟨s2, s1, by rw [s1]; exact Nat.lt_succ_self _, s3, s4, s5, s6⟩
  · intro F N sha verify n msg n' e h
    exact handle_message_view_mono F N sha verify msg n n' e h
  · intro n
    unfold handle_timeout
    split
    · rw [(start_view_change_spec n).1]; exact Nat.le_succ _
    · exact le_refl _

/-- Witness for C7: replica 2 idle in view 5 moves to view 6 on timeout and
broadcasts the ViewChange; a handled Commit leaves its view non-decreasing. -/
theorem c7_view_change_and_monotonicity_witness :
    (handle_timeout c7node).1.view = c7node.view + 1 ∧
    (handle_timeout c7node).2.broadcasts = [.ViewChange 6 0 2] ∧
    c7node.view ≤
      ((handle_message specF specN id alwaysVerify c7node
          (.Commit 0 0 "x")).getD (c7node, Effects.none)).1.view :=
  ⟨(c7_view_change_and_monotonicity.1 c7node rfl).2.1,
   (c7_view_change_and_monotonicity.1 c7node rfl).2.2.2.2.2.1,
   c7_view_change_and_monotonicity.2.1 specF specN id alwaysVerify c7node
     (.Commit 0 0 "x")
     ((handle_message specF specN id alwaysVerify c7node
        (.Commit 0 0 "x")).getD (c7node, Effects.none)).1
     ((handle_message specF specN id alwaysVerify c7node
        (.Commit 0 0 "x")).getD (c7node, Effects.none)).2
     rfl⟩

/-- **C9**: starting from a boot replica, after any processed message
sequence a suspect is blacklisted exactly when ByzantineVotes from at least
`2F+1` distinct accusers naming it have been recorded; and any message
attributed to a blacklisted sender is dropped before dispatch (and before
any signature handling), returning the replica unchanged. -/
theorem c9_blacklist_threshold :
    (∀ (F N : Nat) (sha : String → String)
       (verify : List Nat → PBFTMessage → List Nat → Bool)
       (id view : Nat) (pks : List (Nat × List Nat)) (byz : Bool)
       (msgs : List PBFTMessage) (n' : Node),
       runMessages F N sha verify (initNode id view pks byz) msgs = some n' →
       ∀ s, s ∈ n'.blacklist ↔ 2 * F + 1 ≤ (n'.state.byzantine_votes s).card) ∧
    (∀ (F N : Nat) (sha : String → String)
       (verify : List Nat → PBFTMessage → List Nat → Bool)
       (n : Node) (msg : PBFTMessage),
       sender_of n.id msg ∈ n.blacklist →
       handle_message F N sha verify n msg = some (n, Effects.none)) := by
  constructor
  · intro F N sha verify id view pks byz msgs n' hrun
    refine runMessages_blacklist_inv F N sha verify msgs _ _ hrun ?_
    intro s
    constructor
    · intro hmem
      exact absurd hmem (by simp [initNode, initState])
    · intro hc
      exact absurd hc (by simp [initNode, initState])
  · intro F N sha verify n msg hbl
    cases msg <;> simp only [handle_message] <;> rw [if_pos hbl]

/-- Witness for C9: three votes naming suspect 2 from accusers 1, 3, 0
blacklist it (`2·1+1 = 3` distinct accusers), and a subsequent vote sent by
the blacklisted node 2 is dropped unchanged. -/
theorem c9_blacklist_threshold_witness :
    (2 ∈ c9node.blacklist ↔
      2 * specF + 1 ≤ (c9node.state.byzantine_votes 2).card) ∧
    handle_message specF specN id alwaysVerify c9node (.ByzantineVote 0 2) =
      some (c9node, Effects.none) :=
  ⟨c9_blacklist_threshold.1 specF specN id alwaysVerify 0 0 [] false
     c9msgs c9node rfl 2,
   c9_blacklist_threshold.2 specF specN id alwaysVerify c9node
     (.ByzantineVote 0 2) (by decide)⟩

/-- **C10 (amended)**: the blacklist check attributes every bare top-level
message (not SignedMessage/ByzantineVote/PubKey) to the replica's own id;
whenever the replica has not blacklisted itself, the message is dispatched
directly to its handler with no signature verification, regardless of its
actual origin — and in the (reachable) case that the replica's own id is
blacklisted, the bare message is dropped. -/
theorem c10_amended_bare_dispatch (F N : Nat) (sha : String → String)
    (verify : List Nat → PBFTMessage → List Nat → Bool) (n : Node)
    (msg : PBFTMessage) (hb : isBare msg = true) :
    sender_of n.id msg = n.id ∧
    (n.id ∉ n.blacklist →
       handle_message F N sha verify n msg = process_message F N sha n msg) ∧
    (n.id ∈ n.blacklist →
       handle_message F N sha verify n msg = some (n, Effects.none)) := by
  cases msg <;> first
    | (refine ⟨rfl, fun hnot => ?_, fun hyes => ?_⟩ <;>
        simp only [handle_message, sender_of] <;>
        [rw [if_neg hnot]; rw [if_pos hyes]])
    | exact absurd hb (by simp [isBare])

/-- Witness for C10 (amended): a bare Commit is dispatched straight to the
handler on a fresh replica, and dropped on the self-blacklisted `c10node`. -/
theorem c10_amended_bare_dispatch_witness :
    sender_of (initNode 0 0 [] false).id (.Commit 0 0 "c") =
      (initNode 0 0 [] false).id ∧
    handle_message specF specN id alwaysVerify (initNode 0 0 [] false)
        (.Commit 0 0 "c") =
      process_message specF specN id (initNode 0 0 [] false) (.Commit 0 0 "c") ∧
    handle_message specF specN id alwaysVerify c10node (.Commit 0 0 "c") =
      some (c10node, Effects.none) :=
  ⟨(c10_amended_bare_dispatch specF specN id alwaysVerify
      (initNode 0 0 [] false) (.Commit 0 0 "c") rfl).1,
   (c10_amended_bare_dispatch specF specN id alwaysVerify
      (initNode 0 0 [] false) (.Commit 0 0 "c") rfl).2.1 (by decide),
   (c10_amended_bare_dispatch specF specN id alwaysVerify c10node
      (.Commit 0 0 "c") rfl).2.2 (by decide)⟩

end RustPBFT

namespace RustPBFT

/-! ## Correctness of the digest tallies (for C8) -/

theorem mem_insertIfAbsent (j j' : Nat) (l : List Nat) :
    j' ∈ insertIfAbsent j l ↔ j' = j ∨ j' ∈ l := by
  unfold insertIfAbsent
  split
  · rename_i hmem
    constructor
    · intro h; exact Or.inr h
    · intro h
      rcases h with rfl | h
      · exact hmem
      · exact h
  · simp [List.mem_append, or_comm]

theorem nodup_insertIfAbsent (j : Nat) (l : List Nat) (h : l.Nodup) :
    (insertIfAbsent j l).Nodup := by
  unfold insertIfAbsent
  split
  · exact h
  · rename_i hnot
    simp only [List.nodup_append, List.nodup_cons, List.not_mem_nil,
      not_false_iff, List.nodup_nil, and_true, true_and]
    refine ⟨h, ?_⟩
    intro a ha
    simp only [List.mem_singleton]
    intro rfl2
    exact hnot (rfl2 ▸ ha)

theorem insertIfAbsent_ne_nil (j : Nat) (l : List Nat) :
    insertIfAbsent j l ≠ [] := by
  unfold insertIfAbsent
  split
  · rename_i hmem
    intro he
    rw [he] at hmem
    exact absurd hmem (List.not_mem_nil j)
  · simp

theorem insertSender_inv (ps : List (String × Nat)) (p : String × Nat)
    (acc : List (String × List Nat)) (h : GroupInv ps acc) :
    GroupInv (ps ++ [p]) (insertSender acc p) := by
  obtain ⟨hkeys, hmem, hcov⟩ := h
  unfold insertSender
  split
  · rename_i hany
    have hk : ((acc.map fun q =>
        if q.1 = p.1 then (q.1, insertIfAbsent p.2 q.2) else q).map Prod.fst) =
        acc.map Prod.fst := by
      rw [List.map_map]
      apply List.map_congr_left
      intro q _
      by_cases hq : q.1 = p.1 <;> simp [hq]
    refine ⟨by rw [hk]; exact hkeys, ?_, ?_⟩
    · intro d l hdl
      rw [List.mem_map] at hdl
      obtain ⟨q, hq, hfq⟩ := hdl
      by_cases hq1 : q.1 = p.1
      · rw [if_pos hq1] at hfq
        simp only [Prod.mk.injEq] at hfq
        obtain ⟨hd, hl⟩ := hfq
        obtain ⟨-, hnd, hiff⟩ := hmem q.1 q.2 hq
        subst hl
        refine ⟨insertIfAbsent_ne_nil _ _, nodup_insertIfAbsent _ _ hnd, ?_⟩
        intro j
        rw [mem_insertIfAbsent, hiff j, List.mem_append, List.mem_singleton]
        subst hd
        rw [hq1]
        constructor
        · intro hj
          rcases hj with rfl | hj
          · exact Or.inr rfl
          · exact Or.inl hj
        · intro hj
          rcases hj with hj | hj
          · exact Or.inr hj
          · exact Or.inl (show j = p.2 from congrArg Prod.snd hj)
      · rw [if_neg hq1] at hfq
        subst hfq
        obtain ⟨hne, hnd, hiff⟩ := hmem d l hq
        refine ⟨hne, hnd, ?_⟩
        intro j
        rw [hiff j, List.mem_append, List.mem_singleton]
        constructor
        · intro hj; exact Or.inl hj
        · intro hj
          rcases hj with hj | hj
          · exact hj
          · exact absurd (congrArg Prod.fst hj) hq1
    · intro d j hdj
      rw [hk]
      rw [List.mem_append, List.mem_singleton] at hdj
      rcases hdj with hdj | hdj
      · exact hcov d j hdj
      · rw [List.any_eq_true] at hany
        obtain ⟨q, hq, hq1⟩ := hany
        rw [decide_eq_true_eq] at hq1
        rw [List.mem_map]
        exact ⟨q, hq, by rw [hq1, ← congrArg Prod.fst hdj]⟩
  · rename_i hany
    have hp1 : p.1 ∉ acc.map Prod.fst := by
      intro hmem1
      rw [List.mem_map] at hmem1
      obtain ⟨q, hq, hq1⟩ := hmem1
      exact hany (List.any_eq_true.mpr ⟨q, hq, by simp [hq1]⟩)
    refine ⟨?_, ?_, ?_⟩
    · rw [List.map_append]
      simp only [List.map_cons, List.map_nil]
      rw [List.nodup_append]
      refine ⟨hkeys, List.nodup_singleton _, ?_⟩
      intro a ha
      simp only [List.mem_singleton]
      intro ha2
      exact hp1 (ha2 ▸ ha)
    · intro d l hdl
      rw [List.mem_append, List.mem_singleton] at hdl
      rcases hdl with hdl | hdl
      · obtain ⟨hne, hnd, hiff⟩ := hmem d l hdl
        refine ⟨hne, hnd, ?_⟩
        intro j
        rw [hiff j, List.mem_append, List.mem_singleton]
        constructor
        · intro hj; exact Or.inl hj
        · intro hj
          rcases hj with hj | hj
          · exact hj
          · exfalso
            apply hany
            refine List.any_eq_true.mpr ⟨(d, l), hdl, ?_⟩
            rw [decide_eq_true_eq]
            exact congrArg Prod.fst hj
      · have hd : d = p.1 := congrArg Prod.fst hdl
        have hl : l = [p.2] := congrArg Prod.snd hdl
        subst hd; subst hl
        refine ⟨by simp, List.nodup_singleton _, ?_⟩
        intro j
        rw [List.mem_singleton, List.mem_append, List.mem_singleton]
        constructor
        · intro hj
          subst hj
          exact Or.inr rfl
        · intro hj
          rcases hj with hj | hj
          · exfalso
            have := hcov _ _ hj
            rw [List.mem_map] at this
            obtain ⟨q, hq, hq1⟩ := this
            exact hany (List.any_eq_true.mpr ⟨q, hq, by simp [hq1]⟩)
          · exact show j = p.2 from congrArg Prod.snd hj
    · intro d j hdj
      rw [List.map_append]
      simp only [List.map_cons, List.map_nil]
      rw [List.mem_append, List.mem_singleton] at hdj ⊢
      rcases hdj with hdj | hdj
      · exact Or.inl (hcov d j hdj)
      · exact Or.inr (congrArg Prod.fst hdj)

theorem foldl_insertSender_inv :
    ∀ (qs ps : List (String × Nat)) (acc : List (String × List Nat)),
      GroupInv ps acc → GroupInv (ps ++ qs) (qs.foldl insertSender acc) := by
  intro qs
  induction qs with
  | nil =>
      intro ps acc h
      simpa using h
  | cons q qs ih =>
      intro ps acc h
      have h2 := ih (ps ++ [q]) _ (insertSender_inv ps q acc h)
      simpa [List.append_assoc] using h2

theorem groupPairs_inv (ps : List (String × Nat)) : GroupInv ps (groupPairs ps) := by
  have h0 : GroupInv [] ([] : List (String × List Nat)) := by
    refine ⟨List.nodup_nil, ?_, ?_⟩
    · intro d l h; exact absurd h (List.not_mem_nil _)
    · intro d j h; exact absurd h (List.not_mem_nil _)
  have := foldl_insertSender_inv ps [] [] h0
  simpa [groupPairs] using this

theorem maxStep_some_spec :
    ∀ (l : List (String × List Nat)) (p : String × List Nat),
      ∃ r, l.foldl maxStep (some p) = some r ∧ (r ∈ l ∨ r = p) ∧
        p.2.length ≤ r.2.length ∧ ∀ q ∈ l, q.2.length ≤ r.2.length := by
  intro l
  induction l with
  | nil =>
      intro p
      refine ⟨p, rfl, Or.inr rfl, le_refl _, ?_⟩
      intro q hq
      exact absurd hq (List.not_mem_nil _)
  | cons a l ih =>
      intro p
      simp only [List.foldl_cons]
      by_cases hle : p.2.length ≤ a.2.length
      · rw [show maxStep (some p) a = some a from by simp [maxStep, hle]]
        obtain ⟨r, hr, hmem, hlen, hall⟩ := ih a
        refine ⟨r, hr, ?_, le_trans hle hlen, ?_⟩
        · rcases hmem with h | rfl
          · exact Or.inl (List.mem_cons_of_mem _ h)
          · exact Or.inl (List.mem_cons_self _ _)
        · intro q hq
          rcases List.mem_cons.mp hq with rfl | hq
          · exact hlen
          · exact hall q hq
      · rw [show maxStep (some p) a = some p from by simp [maxStep, hle]]
        obtain ⟨r, hr, hmem, hlen, hall⟩ := ih p
        refine ⟨r, hr, ?_, hlen, ?_⟩
        · rcases hmem with h | rfl
          · exact Or.inl (List.mem_cons_of_mem _ h)
          · exact Or.inr rfl
        · intro q hq
          rcases List.mem_cons.mp hq with rfl | hq
          · exact le_trans (Nat.le_of_lt (Nat.lt_of_not_le hle)) hlen
          · exact hall q hq

theorem maxByLen_spec (l : List (String × List Nat)) (hne : l ≠ []) :
    ∃ r, maxByLen l = some r ∧ r ∈ l ∧ ∀ q ∈ l, q.2.length ≤ r.2.length := by
  cases l with
  | nil => exact absurd rfl hne
  | cons a l =>
      obtain ⟨r, hr, hmem, -, hall⟩ := maxStep_some_spec l a
      refine ⟨r, ?_, ?_, ?_⟩
      · show List.foldl maxStep Option.none (a :: l) = some r
        rw [List.foldl_cons]
        exact hr
      · rcases hmem with h | rfl
        · exact List.mem_cons_of_mem _ h
        · exact List.mem_cons_self _ _
      · intro q hq
        rcases List.mem_cons.mp hq with rfl | hq
        · obtain ⟨r2, hr2, -, hlen2, -⟩ := maxStep_some_spec l q
          rw [hr] at hr2
          injection hr2 with hrr
          rw [hrr]
          exact hlen2
        · exact hall q hq

end RustPBFT

namespace RustPBFT

theorem mem_prepPairsAll (msgs : List PBFTMessage) (d : String) (j : Nat) :
    (d, j) ∈ prepPairsAll msgs ↔ ∃ v s, PBFTMessage.Prepare v s d j ∈ msgs := by
  unfold prepPairsAll
  rw [List.mem_filterMap]
  constructor
  · rintro ⟨m, hm, hf⟩
    cases m <;> simp only [Option.some.injEq, Prod.mk.injEq,
      reduceCtorEq] at hf
    rename_i v s d' i
    obtain ⟨rfl, rfl⟩ := hf
    exact ⟨v, s, hm⟩
  · rintro ⟨v, s, hm⟩
    exact ⟨.Prepare v s d j, hm, rfl⟩

theorem mem_prepPairsAt (selfId view seq : Nat) (msgs : List PBFTMessage)
    (d : String) (j : Nat) :
    (d, j) ∈ prepPairsAt selfId view seq msgs ↔
      j = selfId ∧ ∃ i, PBFTMessage.Prepare view seq d i ∈ msgs := by
  unfold prepPairsAt
  rw [List.mem_filterMap]
  constructor
  · rintro ⟨m, hm, hf⟩
    cases m <;> simp only [reduceCtorEq] at hf
    rename_i v s d' i
    split at hf
    · rename_i hvs
      simp only [Option.some.injEq, Prod.mk.injEq] at hf
      obtain ⟨rfl, rfl⟩ := hf
      obtain ⟨rfl, rfl⟩ := hvs
      exact ⟨rfl, i, hm⟩
    · exact absurd hf (by simp)
  · rintro ⟨rfl, i, hm⟩
    exact ⟨.Prepare view seq d i, hm, by simp⟩

theorem mem_digest_senders (d : String) (msgs : List PBFTMessage) (j : Nat) :
    j ∈ digest_senders d msgs ↔ ∃ v s, PBFTMessage.Prepare v s d j ∈ msgs := by
  unfold digest_senders
  rw [List.mem_toFinset, List.mem_filterMap]
  constructor
  · rintro ⟨m, hm, hf⟩
    cases m <;> simp only [reduceCtorEq] at hf
    rename_i v s d' i
    split at hf
    · rename_i hd
      simp only [Option.some.injEq] at hf
      subst hd; subst hf
      exact ⟨v, s, hm⟩
    · exact absurd hf (by simp)
  · rintro ⟨v, s, hm⟩
    exact ⟨.Prepare v s d j, hm, by simp⟩

theorem mem_prepare_digest_list (msgs : List PBFTMessage) (d : String) :
    d ∈ prepare_digest_list msgs ↔
      ∃ v s i, PBFTMessage.Prepare v s d i ∈ msgs := by
  unfold prepare_digest_list
  rw [List.mem_filterMap]
  constructor
  · rintro ⟨m, hm, hf⟩
    cases m <;> simp only [Option.some.injEq, reduceCtorEq] at hf
    rename_i v s d' i
    subst hf
    exact ⟨v, s, i, hm⟩
  · rintro ⟨v, s, i, hm⟩
    exact ⟨.Prepare v s d i, hm, rfl⟩

theorem digest_map_entry_card (msgs : List PBFTMessage) (d : String)
    (l : List Nat) (h : (d, l) ∈ digest_map msgs) :
    l.length = (digest_senders d msgs).card := by
  obtain ⟨-, hmem, -⟩ := groupPairs_inv (prepPairsAll msgs)
  obtain ⟨-, hnd, hiff⟩ := hmem d l h
  have hft : l.toFinset = digest_senders d msgs := by
    ext j
    rw [List.mem_toFinset, hiff j, mem_prepPairsAll, mem_digest_senders]
  rw [← hft, List.toFinset_card_of_nodup hnd]

theorem digest_counts_key (selfId view seq : Nat) (msgs : List PBFTMessage)
    (d : String) (h : ∃ i, PBFTMessage.Prepare view seq d i ∈ msgs) :
    d ∈ (digest_counts selfId view seq msgs).map Prod.fst := by
  obtain ⟨-, -, hcov⟩ := groupPairs_inv (prepPairsAt selfId view seq msgs)
  exact hcov d selfId
    ((mem_prepPairsAt selfId view seq msgs d selfId).mpr ⟨rfl, h⟩)

theorem digest_counts_trigger (selfId view seq : Nat)
    (msgs : List PBFTMessage) (d₁ d₂ : String) (i₁ i₂ : Nat) (hne : d₁ ≠ d₂)
    (h1 : PBFTMessage.Prepare view seq d₁ i₁ ∈ msgs)
    (h2 : PBFTMessage.Prepare view seq d₂ i₂ ∈ msgs) :
    1 < (digest_counts selfId view seq msgs).length := by
  have k1 := digest_counts_key selfId view seq msgs d₁ ⟨i₁, h1⟩
  have k2 := digest_counts_key selfId view seq msgs d₂ ⟨i₂, h2⟩
  have hsub : ({d₁, d₂} : Finset String) ⊆
      ((digest_counts selfId view seq msgs).map Prod.fst).toFinset := by
    intro x hx
    rw [Finset.mem_insert, Finset.mem_singleton] at hx
    rcases hx with rfl | rfl <;> rw [List.mem_toFinset] <;> assumption
  have hcard : ({d₁, d₂} : Finset String).card = 2 := by
    rw [Finset.card_insert_of_not_mem (by simpa using hne),
      Finset.card_singleton]
  have h2le : 2 ≤ ((digest_counts selfId view seq msgs).map Prod.fst).toFinset.card :=
    hcard ▸ Finset.card_le_card hsub
  have h3 := le_trans h2le
    (List.toFinset_card_le ((digest_counts selfId view seq msgs).map Prod.fst))
  rw [List.length_map] at h3
  omega

end RustPBFT

namespace RustPBFT

theorem detect_byzantine_nodes_spec (n : Node) (msgs : List PBFTMessage)
    (dmax : String)
    (hocc : ∃ v s i, PBFTMessage.Prepare v s dmax i ∈ msgs)
    (hmax : ∀ d, d ∈ prepare_digest_list msgs → d ≠ dmax →
       (digest_senders d msgs).card < (digest_senders dmax msgs).card) :
    ∃ n' e, detect_byzantine_nodes n msgs = some (n', e) ∧
      n'.state = n.state ∧ n'.view = n.view ∧
      n'.sequence_number = n.sequence_number ∧ n'.digest = n.digest ∧
      n'.blacklist = n.blacklist ∧
      (∀ j, j ∈ n'.suspected_nodes ↔ j ∈ n.suspected_nodes ∨
         ∃ v s d, d ≠ dmax ∧ PBFTMessage.Prepare v s d j ∈ msgs) ∧
      (∀ j, (∃ v s d, d ≠ dmax ∧ PBFTMessage.Prepare v s d j ∈ msgs) →
         PBFTMessage.ByzantineVote j n.id ∈ e.broadcasts) := by
  obtain ⟨hkeys, hmem, hcov⟩ := groupPairs_inv (prepPairsAll msgs)
  obtain ⟨v0, s0, i0, h0⟩ := hocc
  have hdk : dmax ∈ (digest_map msgs).map Prod.fst :=
    hcov dmax i0 ((mem_prepPairsAll msgs dmax i0).mpr ⟨v0, s0, h0⟩)
  have hne : digest_map msgs ≠ [] := by
    intro he
    rw [he] at hdk
    exact absurd hdk (by simp)
  obtain ⟨best, hbest, hbmem, hball⟩ := maxByLen_spec (digest_map msgs) hne
  have hb1 : best.1 = dmax := by
    by_contra hb
    obtain ⟨hbne, -, hbiff⟩ := hmem best.1 best.2 hbmem
    obtain ⟨j, hj⟩ := List.exists_mem_of_ne_nil best.2 hbne
    obtain ⟨v, s, hm⟩ := (mem_prepPairsAll msgs best.1 j).mp ((hbiff j).mp hj)
    have hocc1 : best.1 ∈ prepare_digest_list msgs :=
      (mem_prepare_digest_list msgs best.1).mpr ⟨v, s, j, hm⟩
    have hlt := hmax best.1 hocc1 hb
    have hccard := digest_map_entry_card msgs best.1 best.2 hbmem
    obtain ⟨lmax, hlmax⟩ : ∃ l, (dmax, l) ∈ digest_map msgs := by
      rw [List.mem_map] at hdk
      obtain ⟨q, hq, hq1⟩ := hdk
      exact ⟨q.2, by rw [← hq1]; exact hq⟩
    have hmcard := digest_map_entry_card msgs dmax lmax hlmax
    have hle := hball (dmax, lmax) hlmax
    simp only at hle
    omega
  have hoff : ∀ j,
      (j ∈ ((digest_map msgs).filter fun p =>
          decide (p.1 ≠ best.1)).flatMap Prod.snd ↔
        ∃ v s d, d ≠ dmax ∧ PBFTMessage.Prepare v s d j ∈ msgs) := by
    intro j
    rw [List.mem_flatMap]
    constructor
    · rintro ⟨q, hq, hjq⟩
      rw [List.mem_filter, decide_eq_true_eq, hb1] at hq
      obtain ⟨hqmem, hqne⟩ := hq
      obtain ⟨-, -, hiff⟩ := hmem q.1 q.2 hqmem
      obtain ⟨v, s, hm⟩ := (mem_prepPairsAll msgs q.1 j).mp ((hiff j).mp hjq)
      exact ⟨v, s, q.1, hqne, hm⟩
    · rintro ⟨v, s, d, hdne, hm⟩
      have hdk2 : d ∈ (digest_map msgs).map Prod.fst :=
        hcov d j ((mem_prepPairsAll msgs d j).mpr ⟨v, s, hm⟩)
      rw [List.mem_map] at hdk2
      obtain ⟨q, hq, hq1⟩ := hdk2
      refine ⟨q, ?_, ?_⟩
      · rw [List.mem_filter, decide_eq_true_eq, hb1, hq1]
        exact ⟨hq, hdne⟩
      · obtain ⟨-, -, hiff⟩ := hmem q.1 q.2 hq
        refine (hiff j).mpr ?_
        rw [hq1]
        exact (mem_prepPairsAll msgs d j).mpr ⟨v, s, hm⟩
  unfold detect_byzantine_nodes
  dsimp only
  rw [hbest]
  refine ⟨_, _, rfl, rfl, rfl, rfl, rfl, rfl, ?_, ?_⟩
  · intro j
    simp only [Finset.mem_union, List.mem_toFinset]
    rw [hoff j]
  · intro j hex
    rw [List.mem_map]
    exact ⟨j, (hoff j).mpr hex, rfl⟩

end RustPBFT

namespace RustPBFT

/-- **C8 counterexample**.  The claim says the Prepares regrouped for
detection are exactly those for the current `(view, sequence_number)`, and
that exactly the senders of non-majority digests *for that slot* are
suspected and accused.  `detect_byzantine_nodes` (node.rs 310-314) groups
ALL accumulated Prepares with no view/seq filter: sender 7, who contributed
no Prepare at all for the current slot `(0, 1)` (only a stale
`(99, 99, "z")` Prepare), is nevertheless suspected and a ByzantineVote
naming it is broadcast. -/
theorem c8_detection_ignores_current_slot :
    sent_prepare_for 0 1 7 c8msgs = false ∧
    ((handle_prepare specF c8node c8msg).map fun p =>
        decide (7 ∈ p.1.suspected_nodes)) = some true ∧
    ((handle_prepare specF c8node c8msg).map fun p => p.2.broadcasts) =
      some [.ByzantineVote 7 0, .ByzantineVote 3 0] := by
  refine ⟨rfl, by decide, rfl⟩

/-- **C8 (amended)**: on a Prepare receipt, the trigger — more than one
digest among accumulated Prepares for the current `(view, sequence_number)`
— starts detection, but the detection regroups ALL accumulated Prepares
with no view/sequence filter.  Provided the plurality digest `dmax` is
strict (every other occurring digest has strictly fewer distinct senders,
so the `max_by_key` tie-break is immaterial), the replica adds to
`suspected_nodes` exactly the senders that contributed some Prepare (of any
view/seq) with a digest other than `dmax`, and broadcasts a ByzantineVote
naming each such sender. -/
theorem c8_amended_detection (F : Nat) (n : Node) (msg : PBFTMessage)
    (dmax : String) (n' : Node) (e : Effects)
    (hrun : handle_prepare F n msg = some (n', e))
    (d₁ d₂ : String) (i₁ i₂ : Nat) (hne : d₁ ≠ d₂)
    (h1 : PBFTMessage.Prepare n.view n.sequence_number d₁ i₁ ∈
      n.state.messages ++ [msg])
    (h2 : PBFTMessage.Prepare n.view n.sequence_number d₂ i₂ ∈
      n.state.messages ++ [msg])
    (hmax : ∀ d, d ∈ prepare_digest_list (n.state.messages ++ [msg]) →
       d ≠ dmax →
       (digest_senders d (n.state.messages ++ [msg])).card <
       (digest_senders dmax (n.state.messages ++ [msg])).card) :
    (∀ j, j ∈ n'.suspected_nodes ↔ j ∈ n.suspected_nodes ∨
       ∃ v s d, d ≠ dmax ∧
         PBFTMessage.Prepare v s d j ∈ n.state.messages ++ [msg]) ∧
    (∀ j, (∃ v s d, d ≠ dmax ∧
         PBFTMessage.Prepare v s d j ∈ n.state.messages ++ [msg]) →
       PBFTMessage.ByzantineVote j n.id ∈ e.broadcasts) := by
  have hocc : ∃ v s i,
      PBFTMessage.Prepare v s dmax i ∈ n.state.messages ++ [msg] := by
    by_cases hd1 : d₁ = dmax
    · exact ⟨_, _, i₁, hd1 ▸ h1⟩
    · have hl1 : d₁ ∈ prepare_digest_list (n.state.messages ++ [msg]) :=
        (mem_prepare_digest_list _ _).mpr ⟨_, _, i₁, h1⟩
      have hlt := hmax d₁ hl1 hd1
      have hpos : 0 < (digest_senders dmax (n.state.messages ++ [msg])).card := by
        omega
      obtain ⟨j, hj⟩ := Finset.card_pos.mp hpos
      obtain ⟨v, s, hm⟩ := (mem_digest_senders dmax _ j).mp hj
      exact ⟨v, s, j, hm⟩
  obtain ⟨nd, ed, hdet, -, -, -, -, -, hsusp, hbc⟩ :=
    detect_byzantine_nodes_spec
      { n with state := { n.state with messages := n.state.messages ++ [msg] } }
      (n.state.messages ++ [msg]) dmax hocc hmax
  have htrig : 1 < (digest_counts n.id n.view n.sequence_number
      (n.state.messages ++ [msg])).length :=
    digest_counts_trigger n.id n.view n.sequence_number _ d₁ d₂ i₁ i₂ hne h1 h2
  unfold handle_prepare at hrun
  dsimp only at hrun
  rw [if_pos htrig, hdet] at hrun
  dsimp only at hrun
  split at hrun
  · split at hrun
    · exact absurd hrun (by simp)
    · split at hrun
      · simp only [Option.some.injEq, Prod.mk.injEq] at hrun
        obtain ⟨hn', he⟩ := hrun
        subst hn'; subst he
        exact ⟨hsusp, hbc⟩
      · simp only [Option.some.injEq, Prod.mk.injEq] at hrun
        obtain ⟨hn', he⟩ := hrun
        subst hn'; subst he
        refine ⟨hsusp, ?_⟩
        intro j hex
        exact List.mem_append_left _ (hbc j hex)
  · simp only [Option.some.injEq, Prod.mk.injEq] at hrun
    obtain ⟨hn', he⟩ := hrun
    subst hn'; subst he
    exact ⟨hsusp, hbc⟩

/-- Witness for C8 (amended) at the concrete scenario: digest "a" is the
strict plurality; stale-slot sender 7 (digest "z") is suspected and
accused. -/
theorem c8_amended_detection_witness :
    7 ∈ c8res.1.suspected_nodes ∧
    PBFTMessage.ByzantineVote 7 c8node.id ∈ c8res.2.broadcasts :=
  have happ := c8_amended_detection specF c8node c8msg "a" c8res.1 c8res.2 rfl
    "a" "b" 1 3 (by decide)
    (List.mem_append_left _ (List.mem_cons_self _ _))
    (List.mem_append_right _ (List.mem_cons_self _ _))
    (by decide)
  ⟨(happ.1 7).mpr (Or.inr ⟨99, 99, "z", by decide,
      List.mem_append_left _ (List.mem_cons_of_mem _ (List.mem_cons_of_mem _
        (List.mem_cons_self _ _)))⟩),
   happ.2 7 ⟨99, 99, "z", by decide,
      List.mem_append_left _ (List.mem_cons_of_mem _ (List.mem_cons_of_mem _
        (List.mem_cons_self _ _)))⟩⟩

end RustPBFT
